import Mathlib

/-!
Verification development for the `pulutil` repository (Go): a shallow
embedding of the `policy` package (IAM-style policy document builder with
validation and JSON serialization) and the `template` package (deferred
Go text/template rendering over asynchronous values), together with
theorems settling the behavioral claims about them.

Machine integers do not occur in the modelled code; all data is strings,
lists and maps.  Go maps are modelled as association lists ordered by
insertion (Go map iteration order is arbitrary; wherever the code's
behavior depends on it - `encoding/json` sorts map keys, map rebuild in
the template renderer - the model makes that explicit).  A Go `panic` is
modelled as the `Except.error` branch of an `Except` result, or as `none`
of an `Option` result where the surrounding code treats it as fatal.
-/

/- ===================== policy package: data model ===================== -/

namespace policy

/-- `EffectType` from policy.go: a string used with the Effect element. -/
abbrev EffectType := String

/-- The `Allow` effect constant. -/
def Allow : EffectType := "Allow"

/-- The `Deny` effect constant. -/
def Deny : EffectType := "Deny"

/-- One entry of a `Strings` value (`[]interface{}` in the source).  The
source accepts `string`, `[]string`, or any other dynamic type (e.g. a
still-unresolved pulumi output), which `flatten` rejects by panicking.
`other` covers every non-string, non-string-list runtime type; its field
is an arbitrary description of that value. -/
inductive StrElem
  | str (s : String)
  | strList (xs : List String)
  | other (desc : String)
deriving DecidableEq, Repr

/-- `Strings` from policy.go: `type Strings []interface{}`. -/
abbrev Strings := List StrElem

/-- Whether an entry is of one of the two types `flatten` accepts. -/
def StrElem.isPlain : StrElem → Bool
  | .str _ => true
  | .strList _ => true
  | .other _ => false

/-- `Strings.flatten` from policy.go.  The `default:` branch of the type
switch panics; this is modelled by returning `none`. -/
def flattenStrings : Strings → Option (List String)
  | [] => some []
  | .str s :: rest => (flattenStrings rest).map (fun out => s :: out)
  | .strList xs :: rest => (flattenStrings rest).map (fun out => xs ++ out)
  | .other _ :: _ => none

/-- A JSON value, the codomain of the modelled `encoding/json` marshaling
(only the shapes this program produces). -/
inductive JVal
  | str (s : String)
  | arr (xs : List JVal)
  | obj (fields : List (String × JVal))

/-- Whether a JSON value is a bare string. -/
def JVal.isStr : JVal → Bool
  | .str _ => true
  | _ => false

/-- `Strings.MarshalJSON` from policy.go: flatten, then a single entry
marshals bare, otherwise the whole flattened list marshals as an array
(the empty list marshals as `[]`).  A flatten panic propagates (`none`). -/
def marshalStrings (s : Strings) : Option JVal :=
  match flattenStrings s with
  | none => none
  | some entries =>
    match entries with
    | [e] => some (JVal.str e)
    | _ => some (JVal.arr (entries.map JVal.str))

/-- The sentinel errors `ErrInvalidPolicy` and `ErrInvalidStatement`
declared at the top of policy.go. -/
inductive BaseErr
  | invalidPolicy
  | invalidStatement
deriving DecidableEq, Repr

/-- A validation error as produced by `fmt.Errorf("%w: ...", base, ...)`:
the rendered message together with the sentinel error it wraps, so that
`errors.Is err base` is `e.base = base`. -/
structure VErr where
  base : BaseErr
  msg : String
deriving DecidableEq, Repr

/-- Go `%q` of a string, simplified to plain quoting (none of the strings
the claims touch need escaping). -/
def quoteStr (s : String) : String := "\"" ++ s ++ "\""

/-- `Stmt` from policy.go.  The `Principal`, `NotPrincipal` and
`Condition` maps are association lists in insertion order. -/
structure Stmt where
  sid : String
  effect : EffectType
  principal : List (String × Strings)
  notPrincipal : List (String × Strings)
  action : Strings
  notAction : Strings
  resource : Strings
  notResource : Strings
  condition : List (String × List (String × Strings))
deriving DecidableEq, Repr

/-- `Stmt.Validate` from policy.go, with its five checks in source order;
every error it returns wraps `ErrInvalidStatement`. -/
def Stmt.validate (s : Stmt) : Option VErr :=
  if ¬ (s.effect = Allow ∨ s.effect = Deny) then
    some ⟨BaseErr.invalidStatement,
      "invalid statement: invalid Effect element for statement " ++ quoteStr s.sid ++
        ": " ++ quoteStr s.effect⟩
  else if s.principal ≠ [] ∧ s.notPrincipal ≠ [] then
    some ⟨BaseErr.invalidStatement,
      "invalid statement: Principal and NotPrincipal are mutually exclusive for statement " ++
        quoteStr s.sid⟩
  else if s.action = [] ∧ s.notAction = [] then
    some ⟨BaseErr.invalidStatement,
      "invalid statement: no Action or NotAction specified for statement " ++ quoteStr s.sid⟩
  else if s.action ≠ [] ∧ s.notAction ≠ [] then
    some ⟨BaseErr.invalidStatement,
      "invalid statement: Action and NotAction are mutually exclusive for statement " ++
        quoteStr s.sid⟩
  else if s.resource ≠ [] ∧ s.notResource ≠ [] then
    some ⟨BaseErr.invalidStatement,
      "invalid statement: Resource and NotResource are mutually exclusive for statement " ++
        quoteStr s.sid⟩
  else none

/-- `Policy` from policy.go. -/
structure Policy where
  version : String
  id : String
  statement : List Stmt
deriving DecidableEq, Repr

/-- The statement loop of `Policy.Validate`: the first failing statement's
error, wrapped as `fmt.Errorf("policy %q has errors: %w", id, err)` (the
wrap preserves the sentinel the inner error wraps). -/
def firstStmtErr (id : String) : List Stmt → Option VErr
  | [] => none
  | s :: rest =>
    match s.validate with
    | some e => some ⟨e.base, "policy " ++ quoteStr id ++ " has errors: " ++ e.msg⟩
    | none => firstStmtErr id rest

/-- `Policy.Validate` from policy.go. -/
def Policy.validate (p : Policy) : Option VErr :=
  if p.version = "" ∨ p.id = "" then
    some ⟨BaseErr.invalidPolicy,
      "invalid policy: policy " ++ quoteStr p.id ++ " has no version or id set"⟩
  else firstStmtErr p.id p.statement

/- ===================== policy package: builder API ===================== -/

/-- Generic association-list lookup, modelling a Go map read `m[k]`
(returns `none` when the key is absent). -/
def mapGet {α : Type} : List (String × α) → String → Option α
  | [], _ => none
  | kv :: rest, k => if k = kv.1 then some kv.2 else mapGet rest k

/-- Go map write `m[k] = v`: replace the value under an existing key, or
add the key. -/
def mapSet {α : Type} : List (String × α) → String → α → List (String × α)
  | [], k, v => [(k, v)]
  | kv :: rest, k, v => if kv.1 = k then (kv.1, v) :: rest else kv :: mapSet rest k v

/-- Go `m[k] = append(m[k], xs...)`: append to the list under a key,
creating the key when absent (as the setters in policy.go do). -/
def mapAppend : List (String × Strings) → String → Strings → List (String × Strings)
  | [], k, xs => [(k, xs)]
  | kv :: rest, k, xs =>
    if kv.1 = k then (kv.1, kv.2 ++ xs) :: rest else kv :: mapAppend rest k xs

/-- `Opt` from policy.go (functions passed to `New`). -/
abbrev Opt := Policy → Policy

/-- `StatementOpt` from policy.go (functions passed to `Statement`). -/
abbrev StatementOpt := Stmt → Stmt

/-- `Effect` from policy.go. -/
def Effect (effect : EffectType) : StatementOpt :=
  fun s => { s with effect := effect }

/-- `Principal` from policy.go: appends the given principal IDs onto the
list stored under the principal type. -/
def Principal (principalType : String) (principalID : Strings) : StatementOpt :=
  fun s => { s with principal := mapAppend s.principal principalType principalID }

/-- `NotPrincipal` from policy.go. -/
def NotPrincipal (principalType : String) (principalID : Strings) : StatementOpt :=
  fun s => { s with notPrincipal := mapAppend s.notPrincipal principalType principalID }

/-- `Action` from policy.go: appends onto the statement's Action list. -/
def Action (action : Strings) : StatementOpt :=
  fun s => { s with action := s.action ++ action }

/-- `NotAction` from policy.go. -/
def NotAction (action : Strings) : StatementOpt :=
  fun s => { s with notAction := s.notAction ++ action }

/-- `Resource` from policy.go. -/
def Resource (resource : Strings) : StatementOpt :=
  fun s => { s with resource := s.resource ++ resource }

/-- `NotResource` from policy.go. -/
def NotResource (resource : Strings) : StatementOpt :=
  fun s => { s with notResource := s.notResource ++ resource }

/-- `Condition` from policy.go: ensures the outer map entry for the
operator exists, then assigns (replaces) the value list stored under the
condition key: `s.Condition[op][key] = append(nil, values...)`. -/
def Condition (conditionOp conditionKey : String) (conditionValue : Strings) : StatementOpt :=
  fun s =>
    let inner := mapSet ((mapGet s.condition conditionOp).getD []) conditionKey conditionValue
    { s with condition := mapSet s.condition conditionOp inner }

/-- `Statement` from policy.go: builds a `Stmt` with empty principal maps,
applies the options in order, and appends it to the policy's list. -/
def Statement (sid : String) (opts : List StatementOpt) : Opt :=
  fun p =>
    let s0 : Stmt :=
      { sid := sid, effect := "", principal := [], notPrincipal := [],
        action := [], notAction := [], resource := [], notResource := [],
        condition := [] }
    { p with statement := p.statement ++ [opts.foldl (fun s opt => opt s) s0] }

/-- `New` from policy.go: version fixed to "2012-10-17", then the options
applied in order. -/
def New (id : String) (opts : List Opt) : Policy :=
  opts.foldl (fun p opt => opt p) { version := "2012-10-17", id := id, statement := [] }

/- ================ policy package: JSON serialization ================ -/

/-- Comparison used to model `encoding/json`'s sorting of map keys. -/
def strLe (a b : String) : Bool := !(decide (b < a))

/-- Insert into a key-sorted association list. -/
def insertByKey {α : Type} (kv : String × α) : List (String × α) → List (String × α)
  | [] => [kv]
  | kv2 :: rest => if strLe kv.1 kv2.1 then kv :: kv2 :: rest else kv2 :: insertByKey kv rest

/-- Sort an association list by key (insertion sort), as `encoding/json`
does when marshaling a Go map. -/
def sortByKey {α : Type} (l : List (String × α)) : List (String × α) :=
  l.foldr insertByKey []

/-- `Option`-valued map over a list, propagating the first failure
(used to model marshaling every entry of a collection). -/
def optMapM {α β : Type} (f : α → Option β) : List α → Option (List β)
  | [] => some []
  | x :: rest =>
    match f x with
    | none => none
    | some y => (optMapM f rest).map (fun ys => y :: ys)

/-- Marshal a `map[string]Strings` (e.g. the Principal element): keys
sorted, each value via `Strings.MarshalJSON`. -/
def marshalStringsMap (m : List (String × Strings)) : Option (List (String × JVal)) :=
  optMapM (fun kv => (marshalStrings kv.2).map (fun j => (kv.1, j))) (sortByKey m)

/-- One `Strings` struct field with `json:",omitempty"`: omitted (no
field) when the slice is empty, else marshaled under its key. -/
def marshalOptStrings (key : String) (s : Strings) : Option (List (String × JVal)) :=
  if s = [] then some [] else (marshalStrings s).map (fun j => [(key, j)])

/-- One `map[string]Strings` struct field with `json:",omitempty"`. -/
def marshalOptMap (key : String) (m : List (String × Strings)) :
    Option (List (String × JVal)) :=
  if m = [] then some [] else (marshalStringsMap m).map (fun f => [(key, JVal.obj f)])

/-- Marshal the two-level Condition map: operators sorted, each inner
map marshaled as an object. -/
def marshalCondMap (m : List (String × List (String × Strings))) :
    Option (List (String × JVal)) :=
  optMapM (fun kv => (marshalStringsMap kv.2).map (fun f => (kv.1, JVal.obj f)))
    (sortByKey m)

/-- The Condition struct field with `json:",omitempty"`. -/
def marshalOptCond (m : List (String × List (String × Strings))) :
    Option (List (String × JVal)) :=
  if m = [] then some [] else (marshalCondMap m).map (fun f => [("Condition", JVal.obj f)])

/-- Marshaling of one `Stmt` by `encoding/json`: struct fields in
declaration order, `Sid` omitted when empty, `Effect` always present,
the remaining fields subject to `omitempty`.  A flatten panic anywhere
propagates as `none`. -/
def marshalStmt (s : Stmt) : Option JVal :=
  (marshalOptMap "Principal" s.principal).bind (fun fP =>
  (marshalOptMap "NotPrincipal" s.notPrincipal).bind (fun fNP =>
  (marshalOptStrings "Action" s.action).bind (fun fA =>
  (marshalOptStrings "NotAction" s.notAction).bind (fun fNA =>
  (marshalOptStrings "Resource" s.resource).bind (fun fR =>
  (marshalOptStrings "NotResource" s.notResource).bind (fun fNR =>
  (marshalOptCond s.condition).map (fun fC =>
    JVal.obj
      ((if s.sid = "" then [] else [("Sid", JVal.str s.sid)]) ++
        [("Effect", JVal.str s.effect)] ++ fP ++ fNP ++ fA ++ fNA ++ fR ++ fNR ++ fC))))))))

/-- Modelled from the spec: the repository's JSON marshaler for `Stmts`
is not under src/ (src/policy/policy.go holds only the declaration
`type Stmts []Stmt`, while the repository's tests `TestStringArrayJSON`,
`TestMultiStmtJSON` and the `ExampleNew` output require the behavior).
Per the spec: "A single statement serializes as a bare object; multiple
statements serialize as an array." -/
def marshalStmts (l : List Stmt) : Option JVal :=
  match l with
  | [s] => marshalStmt s
  | _ => (optMapM marshalStmt l).map JVal.arr

/-- Marshaling of a `Policy` by `encoding/json`: fields in declaration
order `Version`, `Id` (renamed by its json tag), `Statement`. -/
def marshalPolicy (p : Policy) : Option JVal :=
  (marshalStmts p.statement).map (fun sv =>
    JVal.obj [("Version", JVal.str p.version), ("Id", JVal.str p.id), ("Statement", sv)])

/-- `Policy.ToStringOutput` / `ToStringOutputWithContext` from policy.go:
validate first and panic (`Except.error`) on failure, otherwise resolve
embedded outputs and marshal (the marshal-time flatten panic is the inner
`Option`'s `none`). -/
def toStringOutput (p : Policy) : Except VErr (Option JVal) :=
  match p.validate with
  | some e => Except.error e
  | none => Except.ok (marshalPolicy p)

/-- A `Strings` whose entries are all plain strings or string lists,
i.e. every embedded asynchronous value has been resolved. -/
def stringsResolved (s : Strings) : Bool := s.all StrElem.isPlain

/-- All values of a principal-style map resolved. -/
def mapResolved (m : List (String × Strings)) : Bool :=
  m.all (fun kv => stringsResolved kv.2)

/-- All `Strings` inside a statement resolved. -/
def stmtResolved (s : Stmt) : Bool :=
  mapResolved s.principal && mapResolved s.notPrincipal &&
    stringsResolved s.action && stringsResolved s.notAction &&
    stringsResolved s.resource && stringsResolved s.notResource &&
    s.condition.all (fun kv => mapResolved kv.2)

/-- All statements of a policy resolved. -/
def policyResolved (p : Policy) : Bool := p.statement.all stmtResolved

end policy

/- ==================== template package: data model ==================== -/

namespace template

/-- A resolved template variable value, as seen by `text/template` after
all pulumi outputs have resolved: a string, a map (`map[string]...`), or
a nil interface value (`vnil`), which is what indexing a Go map at a
missing key produces. -/
inductive Value
  | vnil
  | str (s : String)
  | obj (fields : List (String × Value))

/-- How `text/template` prints a value into the output: a nil value
prints as the `<no value>` placeholder; a map prints as Go fmt renders it
(modelled in stored field order). -/
def printValue : Value → String
  | .vnil => "<no value>"
  | .str s => s
  | .obj fields => "map[" ++ printFields fields ++ "]"
where
  printFields : List (String × Value) → String
    | [] => ""
    | [kv] => kv.1 ++ ":" ++ printValue kv.2
    | kv :: rest => kv.1 ++ ":" ++ printValue kv.2 ++ " " ++ printFields rest

/-- The resolved variable mapping handed to the template (the
`finalVars` map in renderTemplate). -/
abbrev VarMap := String → Option Value

/-- A parsed template node of the modelled `text/template` fragment:
literal text, or a field-chain action such as a dotted reference. -/
inductive Chunk
  | lit (s : String)
  | field (path : List String)
deriving DecidableEq, Repr

/-- The opening brace character (written via its code point). -/
def lbrace : Char := Char.ofNat 123

/-- The closing brace character (written via its code point). -/
def rbrace : Char := Char.ofNat 125

/-- Split the input at the first action opener (two opening braces):
returns the literal prefix and the remainder after the opener. -/
def findOpen : List Char → Option (List Char × List Char)
  | c1 :: c2 :: rest =>
    if c1 = lbrace ∧ c2 = lbrace then some ([], rest)
    else
      match findOpen (c2 :: rest) with
      | some (a, b) => some (c1 :: a, b)
      | none => none
  | _ => none

/-- Split the input at the first action closer (two closing braces):
returns the action content and the remainder after the closer. -/
def findClose : List Char → Option (List Char × List Char)
  | c1 :: c2 :: rest =>
    if c1 = rbrace ∧ c2 = rbrace then some ([], rest)
    else
      match findClose (c2 :: rest) with
      | some (a, b) => some (c1 :: a, b)
      | none => none
  | _ => none

/-- Leading whitespace removal over characters. -/
def dropSpaces (cs : List Char) : List Char :=
  cs.dropWhile (fun c => c = ' ' ∨ c = '\t' ∨ c = '\n' ∨ c = '\r')

/-- Trim whitespace from both ends of an action's content. -/
def trimSpaces (cs : List Char) : List Char :=
  (dropSpaces (dropSpaces cs).reverse).reverse

/-- Characters permitted in a field identifier. -/
def isIdentChar (c : Char) : Bool := c.isAlphanum || c = '_'

/-- Split a character list on dots. -/
def splitOnDot : List Char → List (List Char)
  | [] => [[]]
  | c :: rest =>
    let r := splitOnDot rest
    if c = '.' then [] :: r
    else
      match r with
      | h :: t => (c :: h) :: t
      | [] => [[c]]

/-- Parse one action's content (between the brace pairs) of the modelled
`text/template` fragment: a dotted field chain `.A.B...` with optional
surrounding whitespace.  Anything else is a parse (compile) error, as in
`text/template` (e.g. an unknown function name, an empty action). -/
def parseAction (content : List Char) : Except String (List String) :=
  match trimSpaces content with
  | [] => Except.error "missing value for command"
  | c :: rest =>
    if c = '.' then
      match rest with
      | [] => Except.error "unsupported bare dot reference"
      | _ =>
        let parts := splitOnDot rest
        if parts.all (fun p => !p.isEmpty && p.all isIdentChar) then
          Except.ok (parts.map (fun p => String.mk p))
        else Except.error ("bad character in action " ++ String.mk content)
    else Except.error ("function " ++ String.mk (trimSpaces content) ++ " not defined")

/-- Parse the template text into chunks.  An opener with no matching
closer is the "unclosed action" parse error. The fuel argument only
bounds the recursion; each step consumes at least the two opener
characters, so `length + 1` fuel never runs out. -/
def parseChunksAux : Nat → List Char → Except String (List Chunk)
  | 0, _ => Except.error "unclosed action"
  | Nat.succ fuel, cs =>
    match findOpen cs with
    | none => Except.ok (if cs = [] then [] else [Chunk.lit (String.mk cs)])
    | some (before, after) =>
      match findClose after with
      | none => Except.error "unclosed action"
      | some (content, rest) =>
        match parseAction content with
        | Except.error e => Except.error e
        | Except.ok path =>
          match parseChunksAux fuel rest with
          | Except.error e => Except.error e
          | Except.ok tail =>
            Except.ok
              ((if before = [] then [] else [Chunk.lit (String.mk before)]) ++
                Chunk.field path :: tail)

/-- `tpl.New("tpl").Parse(templateText)` of the modelled fragment. -/
def parseTemplate (s : String) : Except String (List Chunk) :=
  parseChunksAux (s.length + 1) s.data

/-- Association-list lookup for object fields (reuses the policy model's
map semantics). -/
def fieldGet : List (String × Value) → String → Option Value
  | [], _ => none
  | kv :: rest, k => if k = kv.1 then some kv.2 else fieldGet rest k

/-- Evaluate a field chain against a value, as `text/template` does on
`map[string]interface{}` data: indexing a map at a missing key yields the
nil value (rendered `<no value>`), while selecting a field on a string or
on nil is an execution error. -/
def evalPath : Value → List String → Except String Value
  | v, [] => Except.ok v
  | v, f :: rest =>
    match v with
    | .obj fields =>
      match fieldGet fields f with
      | some v2 => evalPath v2 rest
      | none => evalPath Value.vnil rest
    | .vnil => Except.error ("nil pointer evaluating interface \x7b\x7d." ++ f)
    | .str _ => Except.error ("can't evaluate field " ++ f ++ " in type string")

/-- `tpl.Execute` of the modelled fragment: renders the chunks in order;
the first failing action aborts execution with its error (the partially
written output is discarded by the caller). -/
def execChunks (vars : VarMap) : List Chunk → Except String String
  | [] => Except.ok ""
  | Chunk.lit s :: rest =>
    match execChunks vars rest with
    | Except.ok t => Except.ok (s ++ t)
    | Except.error e => Except.error e
  | Chunk.field [] :: _ => Except.error "empty field chain"
  | Chunk.field (name :: sub) :: rest =>
    match evalPath (match vars name with | some v => v | none => Value.vnil) sub with
    | Except.error e => Except.error e
    | Except.ok v =>
      match execChunks vars rest with
      | Except.ok t => Except.ok (printValue v ++ t)
      | Except.error e => Except.error e

/- ============ template package: JSON validation (encoding/json) ============ -/

/-- JSON whitespace. -/
def jsonWs (c : Char) : Bool := c = ' ' || c = '\t' || c = '\n' || c = '\r'

/-- Skip whitespace, tracking the byte offset. -/
def skipWs : List Char → Nat → List Char × Nat
  | [], p => ([], p)
  | c :: rest, p => if jsonWs c then skipWs rest (p + 1) else (c :: rest, p)

/-- Parse the remainder of a JSON string literal (after the opening
quote), accepting any escaped character. -/
def parseJStr : List Char → Nat → Except (Nat × String) (List Char × Nat)
  | [], p => Except.error (p, "unexpected end of JSON input")
  | c :: rest, p =>
    if c = '"' then Except.ok (rest, p + 1)
    else if c = '\\' then
      match rest with
      | [] => Except.error (p + 1, "unexpected end of JSON input")
      | _ :: rest2 => parseJStr rest2 (p + 2)
    else parseJStr rest (p + 1)

/-- Consume a run of digits. -/
def spanDigits : List Char → Nat → List Char × Nat
  | [], p => ([], p)
  | c :: rest, p => if c.isDigit then spanDigits rest (p + 1) else (c :: rest, p)

/-- Optional fraction part of a JSON number. -/
def parseFrac (cs : List Char) (p : Nat) : Except (Nat × String) (List Char × Nat) :=
  match cs with
  | c :: rest =>
    if c = '.' then
      match rest with
      | d :: _ =>
        if d.isDigit then Except.ok (spanDigits rest (p + 1))
        else Except.error (p + 1, "invalid character in number")
      | [] => Except.error (p + 1, "unexpected end of JSON input")
    else Except.ok (cs, p)
  | [] => Except.ok (cs, p)

/-- Optional exponent part of a JSON number. -/
def parseExp (cs : List Char) (p : Nat) : Except (Nat × String) (List Char × Nat) :=
  match cs with
  | c :: rest =>
    if c = 'e' ∨ c = 'E' then
      let m := match rest with
        | c2 :: rest2 => if c2 = '+' ∨ c2 = '-' then (rest2, p + 2) else (rest, p + 1)
        | [] => (rest, p + 1)
      match m.1 with
      | d :: _ =>
        if d.isDigit then Except.ok (spanDigits m.1 m.2)
        else Except.error (m.2, "invalid character in number exponent")
      | [] => Except.error (m.2, "unexpected end of JSON input")
    else Except.ok (cs, p)
  | [] => Except.ok (cs, p)

/-- Parse a JSON number beginning at the current position. -/
def parseNumber (cs : List Char) (p : Nat) : Except (Nat × String) (List Char × Nat) :=
  let m := match cs with
    | c :: rest => if c = '-' then (rest, p + 1) else (cs, p)
    | [] => (cs, p)
  match m.1 with
  | c :: _ =>
    if c.isDigit then
      let s1 := spanDigits m.1 m.2
      match parseFrac s1.1 s1.2 with
      | Except.error e => Except.error e
      | Except.ok s2 => parseExp s2.1 s2.2
    else Except.error (m.2, "invalid number")
  | [] => Except.error (m.2, "unexpected end of JSON input")

/-- Match an exact literal tail (for `true`, `false`, `null`). -/
def expectLit : List Char → List Char → Nat → Except (Nat × String) (List Char × Nat)
  | [], cs, p => Except.ok (cs, p)
  | _ :: _, [], p => Except.error (p, "unexpected end of JSON input")
  | e :: erest, c :: rest, p =>
    if c = e then expectLit erest rest (p + 1)
    else Except.error (p, "invalid character " ++ String.mk [c] ++ " in literal")

mutual

/-- Parse one JSON value; models the syntax checking (and error offsets)
performed by `json.Unmarshal` into an `interface{}`. -/
def parseJValue : Nat → List Char → Nat → Except (Nat × String) (List Char × Nat)
  | 0, _, p => Except.error (p, "exceeded max nesting depth")
  | Nat.succ fuel, cs, p =>
    let sp := skipWs cs p
    match sp.1 with
    | [] => Except.error (sp.2, "unexpected end of JSON input")
    | c :: rest =>
      if c = '"' then parseJStr rest (sp.2 + 1)
      else if c = lbrace then parseJObj fuel rest (sp.2 + 1) true
      else if c = '[' then parseJArr fuel rest (sp.2 + 1) true
      else if c = 't' then expectLit ['r', 'u', 'e'] rest (sp.2 + 1)
      else if c = 'f' then expectLit ['a', 'l', 's', 'e'] rest (sp.2 + 1)
      else if c = 'n' then expectLit ['u', 'l', 'l'] rest (sp.2 + 1)
      else if c = '-' ∨ c.isDigit then parseNumber sp.1 sp.2
      else
        Except.error
          (sp.2, "invalid character " ++ String.mk [c] ++ " looking for beginning of value")

/-- Parse the items of a JSON array (after the opening bracket). -/
def parseJArr : Nat → List Char → Nat → Bool → Except (Nat × String) (List Char × Nat)
  | 0, _, p, _ => Except.error (p, "exceeded max nesting depth")
  | Nat.succ fuel, cs, p, first =>
    let sp := skipWs cs p
    match sp.1 with
    | [] => Except.error (sp.2, "unexpected end of JSON input")
    | c :: rest =>
      if first ∧ c = ']' then Except.ok (rest, sp.2 + 1)
      else
        match parseJValue fuel sp.1 sp.2 with
        | Except.error e => Except.error e
        | Except.ok pr =>
          let sp2 := skipWs pr.1 pr.2
          match sp2.1 with
          | [] => Except.error (sp2.2, "unexpected end of JSON input")
          | c2 :: rest2 =>
            if c2 = ']' then Except.ok (rest2, sp2.2 + 1)
            else if c2 = ',' then parseJArr fuel rest2 (sp2.2 + 1) false
            else
              Except.error
                (sp2.2, "invalid character " ++ String.mk [c2] ++ " after array element")

/-- Parse the members of a JSON object (after the opening brace). -/
def parseJObj : Nat → List Char → Nat → Bool → Except (Nat × String) (List Char × Nat)
  | 0, _, p, _ => Except.error (p, "exceeded max nesting depth")
  | Nat.succ fuel, cs, p, first =>
    let sp := skipWs cs p
    match sp.1 with
    | [] => Except.error (sp.2, "unexpected end of JSON input")
    | c :: rest =>
      if first ∧ c = rbrace then Except.ok (rest, sp.2 + 1)
      else if c = '"' then
        match parseJStr rest (sp.2 + 1) with
        | Except.error e => Except.error e
        | Except.ok pr =>
          let sp2 := skipWs pr.1 pr.2
          match sp2.1 with
          | [] => Except.error (sp2.2, "unexpected end of JSON input")
          | c2 :: rest2 =>
            if c2 = ':' then
              match parseJValue fuel rest2 (sp2.2 + 1) with
              | Except.error e => Except.error e
              | Except.ok pr2 =>
                let sp3 := skipWs pr2.1 pr2.2
                match sp3.1 with
                | [] => Except.error (sp3.2, "unexpected end of JSON input")
                | c3 :: rest3 =>
                  if c3 = rbrace then Except.ok (rest3, sp3.2 + 1)
                  else if c3 = ',' then parseJObj fuel rest3 (sp3.2 + 1) false
                  else
                    Except.error
                      (sp3.2,
                        "invalid character " ++ String.mk [c3] ++
                          " after object key:value pair")
            else
              Except.error
                (sp2.2, "invalid character " ++ String.mk [c2] ++ " after object key")
      else
        Except.error
          (sp.2,
            "invalid character " ++ String.mk [c] ++
              " looking for beginning of object key string")

end

/-- `json.Unmarshal(result, &tmp)` as used by renderTemplate: syntax
check of the whole input, reporting the byte offset of a syntax error. -/
def unmarshalValid (s : String) : Except (Nat × String) Unit :=
  match parseJValue (s.length + 1) s.data 0 with
  | Except.error e => Except.error e
  | Except.ok pr =>
    let sp := skipWs pr.1 pr.2
    match sp.1 with
    | [] => Except.ok ()
    | c :: _ =>
      Except.error
        (sp.2, "invalid character " ++ String.mk [c] ++ " after top-level value")

/- ==================== template package: renderTemplate ==================== -/

/-- The three error kinds of template.go, each wrapping its sentinel
(`ErrCompileError`, `ErrExecuteError`, `ErrInvalidJSON`).  For InvalidJSON
the byte offset is present exactly when the unmarshal error was a
`*json.SyntaxError` (always, for this code's `interface{}` target). -/
inductive TemplateErr
  | compileError (detail : String)
  | executeError (detail : String)
  | invalidJSON (offset : Option Nat) (detail : String) (rendered : String)
deriving DecidableEq, Repr

/-- The rendered message of each error, following the `fmt.Errorf`
format strings in template.go (`%w` renders the sentinel's text). -/
def errMessage : TemplateErr → String
  | .compileError d => "template compile error: " ++ d
  | .executeError d => "template execution error: " ++ d
  | .invalidJSON (some off) d rendered =>
    "template produced invalid JSON: Template does not compile to valid JSON with syntax error at byte " ++
      Nat.repr off ++ (": " ++ d ++ "\n" ++ rendered)
  | .invalidJSON none d rendered =>
    "template produced invalid JSON: Template does not compile to valid JSON: " ++
      (d ++ "\n" ++ rendered)

/-- `templateError` from template.go.  With `noPanic` set (the package's
test mode) the error is captured into the `testTemplateError` slot (the
`Option TemplateErr` component) and its message is returned as the
string; otherwise the error is raised as a panic (`Except.error`). -/
def templateError (noPanic : Bool) (e : TemplateErr) :
    Except TemplateErr (Option TemplateErr × String) :=
  if noPanic then Except.ok (some e, errMessage e) else Except.error e

/-- What the synchronous part of `renderTemplate` hands back: either an
already-resolved string output (produced without consulting the
variables), or a continuation registered on the variables via
`pulumi.All(...).ApplyT` (represented by the compiled chunks). -/
inductive SyncResult
  | immediate (captured : Option TemplateErr) (value : String)
  | deferred (chunks : List Chunk)
deriving DecidableEq, Repr

/-- The validation tail of the ApplyT continuation (template.go lines
95-107): with `validateJSON` set, a failed unmarshal produces the
InvalidJSON error (offset included when the error is a syntax error),
otherwise the rendered text passes through unchanged. -/
def validatePhase (noPanic : Bool) (validateJSON : Bool) (result : String) :
    Except TemplateErr (Option TemplateErr × String) :=
  if validateJSON then
    match unmarshalValid result with
    | Except.error em =>
      templateError noPanic (TemplateErr.invalidJSON (some em.1) em.2 result)
    | Except.ok _ => Except.ok (none, result)
  else Except.ok (none, result)

/-- The ApplyT continuation of `renderTemplate`: execute the compiled
template against the rebuilt variable map; an execution error becomes
the ExecuteError (the partially written builder content is discarded),
then the JSON validation tail runs. -/
def contRun (noPanic : Bool) (finalVars : VarMap) (chunks : List Chunk)
    (validateJSON : Bool) : Except TemplateErr (Option TemplateErr × String) :=
  match execChunks finalVars chunks with
  | Except.error e => templateError noPanic (TemplateErr.executeError e)
  | Except.ok result => validatePhase noPanic validateJSON result

/-- `finalVars` reconstruction inside the continuation: the pairs are
written into a fresh map in iteration order (`finalVars[names[i]] = v`),
later writes overwriting earlier ones. -/
def buildFinalVars (pairs : List (String × Value)) : VarMap :=
  pairs.foldl (fun m kv => fun x => if x = kv.1 then some kv.2 else m x) (fun _ => none)

/-- The synchronous body of `renderTemplate` (called by `New` and
`NewJSON`): compile the template text eagerly; on a parse error call
`templateError` and wrap its message as an already-resolved output
(in no-panic mode), without ever consulting the variables; otherwise
register the continuation.  `vars` is the variable map in Go's (arbitrary)
iteration order.  An `Except.error` is a synchronous panic escaping the
call. -/
def renderTemplate (noPanic : Bool) (_vars : List (String × Value)) (templateText : String)
    (_validateJSON : Bool) : Except TemplateErr SyncResult :=
  match parseTemplate templateText with
  | Except.error e =>
    match templateError noPanic (TemplateErr.compileError e) with
    | Except.error pe => Except.error pe
    | Except.ok pr => Except.ok (SyncResult.immediate pr.1 pr.2)
  | Except.ok _chunks => Except.ok (SyncResult.deferred _chunks)

/-- The eventual outcome a consumer of the returned StringOutput sees:
the immediate value for a compile failure in no-panic mode, otherwise
the continuation's result once all variables have resolved.  The
captured-error slot is carried alongside the string. -/
def renderEventual (noPanic : Bool) (vars : List (String × Value)) (templateText : String)
    (validateJSON : Bool) : Except TemplateErr (Option TemplateErr × String) :=
  match renderTemplate noPanic vars templateText validateJSON with
  | Except.error e => Except.error e
  | Except.ok (SyncResult.immediate cap v) => Except.ok (cap, v)
  | Except.ok (SyncResult.deferred chunks) =>
    contRun noPanic (buildFinalVars vars) chunks validateJSON

/-- Whether an `Except` result is a normal return (no panic escaped). -/
def isOkE {ε α : Type} : Except ε α → Bool
  | Except.ok _ => true
  | Except.error _ => false

end template

/- ==================== concrete instances for witnesses ==================== -/

namespace policy

/-- A `Strings` value with two plain string entries. -/
def c2w : Strings := [StrElem.str "one", StrElem.str "two"]

/-- A `Strings` value with exactly one entry that is a two-element string
list. -/
def c2cex : Strings := [StrElem.strList ["a", "b"]]

/-- A statement with a valid effect but neither Action nor NotAction. -/
def stmtWc3 : Stmt :=
  { sid := "s3", effect := Allow, principal := [], notPrincipal := [],
    action := [], notAction := [], resource := [], notResource := [], condition := [] }

/-- A policy with empty version and id. -/
def pBadC4 : Policy := { version := "", id := "", statement := [] }

/-- A statement whose effect is the empty string (invalid). -/
def stmtCexC4 : Stmt :=
  { sid := "s1", effect := "", principal := [], notPrincipal := [],
    action := [], notAction := [], resource := [], notResource := [], condition := [] }

/-- A policy with version and id set whose only statement is invalid. -/
def pCexC4 : Policy := { version := "2012-10-17", id := "x", statement := [stmtCexC4] }

/-- The single-statement policy of the repository's
`TestStringArrayJSON` test, with its outputs resolved. -/
def wpolC1 : Policy :=
  New "id"
    [Statement "stmt1"
      [Effect Allow,
       Action [StrElem.str "action"],
       Principal "AWS" [StrElem.str "aws-id", StrElem.strList ["id2", "id3"]],
       Resource [StrElem.strList ["r1"]]]]

end policy

namespace template

/-- A resolved variable map binding only "A" to a string. -/
def c6vars : VarMap := buildFinalVars [("A", Value.str "x")]

/-- A two-variable mapping in one iteration order. -/
def c9p1 : List (String × Value) := [("A", Value.str "1"), ("B", Value.str "2")]

/-- The same mapping in the other iteration order. -/
def c9p2 : List (String × Value) := [("B", Value.str "2"), ("A", Value.str "1")]

end template

/- ========================= theorems: policy ========================= -/

namespace policy

lemma flattenStrings_none_iff (s : Strings) :
    flattenStrings s = none ↔ ∃ el ∈ s, StrElem.isPlain el = false := by
  induction s with
  | nil => simp [flattenStrings]
  | cons el rest ih =>
    cases el with
    | str v => simp [flattenStrings, StrElem.isPlain, ih]
    | strList xs => simp [flattenStrings, StrElem.isPlain, ih]
    | other d => simp [flattenStrings, StrElem.isPlain]

/-- Claim C10: marshaling a `Strings` value is total exactly on values
whose entries are all plain strings or plain string lists; for any entry
of another runtime type (e.g. a still-unresolved asynchronous value),
`flatten` panics (modelled: returns `none`) rather than returning an
error, and `MarshalJSON` propagates that panic. -/
theorem c10_flatten_panics_on_unresolved (s : Strings) :
    (flattenStrings s = none ↔ ∃ el ∈ s, StrElem.isPlain el = false) ∧
    (marshalStrings s = none ↔ flattenStrings s = none) := by
  refine ⟨flattenStrings_none_iff s, ?_⟩
  unfold marshalStrings
  cases hf : flattenStrings s with
  | none => simp
  | some entries =>
    cases entries with
    | nil => simp
    | cons a t => cases t <;> simp

/-- Claim C2 (amended): for a `Strings` value whose flatten succeeds,
marshaling is driven by the number of flattened entries: exactly one
entry marshals as a bare JSON string, zero entries as `[]`, and two or
more as a JSON array of the entries. -/
theorem c2_strings_single_vs_array (s : Strings) (entries : List String)
    (h : flattenStrings s = some entries) :
    (entries = [] → marshalStrings s = some (JVal.arr [])) ∧
    (entries.length = 1 → ∃ e, entries = [e] ∧ marshalStrings s = some (JVal.str e)) ∧
    (2 ≤ entries.length → marshalStrings s = some (JVal.arr (entries.map JVal.str))) := by
  unfold marshalStrings
  rw [h]
  cases entries with
  | nil => exact ⟨fun _ => rfl, by simp, by simp⟩
  | cons a t =>
    cases t with
    | nil => exact ⟨by simp, fun _ => ⟨a, rfl, rfl⟩, by simp⟩
    | cons b t2 => exact ⟨by simp, by simp, fun _ => rfl⟩

/-- Witness for C2: a two-entry value flattens to two strings and
marshals as a two-element array. -/
theorem c2_witness :
    flattenStrings c2w = some ["one", "two"] ∧
      marshalStrings c2w = some (JVal.arr [JVal.str "one", JVal.str "two"]) :=
  ⟨rfl, (c2_strings_single_vs_array c2w ["one", "two"] rfl).2.2 (by decide)⟩

/-- Counterexample for C2 as frozen: a `Strings` value containing exactly
one element (a two-element string list) marshals as a JSON array, not as
a bare JSON string. -/
theorem c2_counterexample :
    c2cex.length = 1 ∧
      marshalStrings c2cex = some (JVal.arr [JVal.str "a", JVal.str "b"]) ∧
      JVal.isStr (JVal.arr [JVal.str "a", JVal.str "b"]) = false :=
  ⟨rfl, rfl, rfl⟩

/-- Claim C3: `Stmt.Validate` fails exactly when the effect is neither
Allow nor Deny, or Principal and NotPrincipal are both non-empty, or
neither Action nor NotAction is non-empty, or both are, or Resource and
NotResource are both non-empty; and every error it returns wraps
`ErrInvalidStatement`.  Otherwise it returns no error. -/
theorem c3_stmt_validate_iff (s : Stmt) :
    ((s.validate).isSome = true ↔
      (¬ (s.effect = Allow ∨ s.effect = Deny) ∨
        (s.principal ≠ [] ∧ s.notPrincipal ≠ []) ∨
        (s.action = [] ∧ s.notAction = []) ∨
        (s.action ≠ [] ∧ s.notAction ≠ []) ∨
        (s.resource ≠ [] ∧ s.notResource ≠ []))) ∧
    (∀ e, s.validate = some e → e.base = BaseErr.invalidStatement) := by
  constructor
  · unfold Stmt.validate
    split_ifs with h1 h2 h3 h4 h5 <;> simp <;> tauto
  · intro e he
    unfold Stmt.validate at he
    split_ifs at he
    all_goals first
      | exact Option.noConfusion he
      | exact (Option.some.inj he) ▸ rfl

/-- Witness for C3: a statement with a valid effect but neither Action
nor NotAction fails validation. -/
theorem c3_witness : (stmtWc3.validate).isSome = true :=
  (c3_stmt_validate_iff stmtWc3).1.mpr
    (Or.inr (Or.inr (Or.inl ⟨rfl, rfl⟩)))

lemma mapGet_mapAppend (m : List (String × Strings)) (k : String) (xs : Strings) :
    mapGet (mapAppend m k xs) k = some ((mapGet m k).getD [] ++ xs) := by
  induction m with
  | nil => simp [mapAppend, mapGet]
  | cons kv rest ih =>
    by_cases h : kv.1 = k
    · simp [mapAppend, mapGet, h]
    · have h2 : ¬ (k = kv.1) := fun hh => h hh.symm
      simp [mapAppend, mapGet, h, h2, ih]

lemma mapGet_mapSet {α : Type} (m : List (String × α)) (k : String) (v : α) :
    mapGet (mapSet m k v) k = some v := by
  induction m with
  | nil => simp [mapSet, mapGet]
  | cons kv rest ih =>
    by_cases h : kv.1 = k
    · simp [mapSet, mapGet, h]
    · have h2 : ¬ (k = kv.1) := fun hh => h hh.symm
      simp [mapSet, mapGet, h, h2, ih]

/-- Claim C8: within one statement, the Action/NotAction/Resource/
NotResource setters and repeated Principal/NotPrincipal applications for
the same principal type append to the existing list, while a repeated
Condition application for the same (operator, key) pair replaces the
stored value list. -/
theorem c8_setters_accumulate_condition_replaces (s : Stmt)
    (a1 a2 b1 b2 r1 r2 n1 n2 p1 p2 q1 q2 v1 v2 : Strings) (t u op k : String) :
    ((Action a2 (Action a1 s)).action = s.action ++ (a1 ++ a2)) ∧
    ((NotAction b2 (NotAction b1 s)).notAction = s.notAction ++ (b1 ++ b2)) ∧
    ((Resource r2 (Resource r1 s)).resource = s.resource ++ (r1 ++ r2)) ∧
    ((NotResource n2 (NotResource n1 s)).notResource = s.notResource ++ (n1 ++ n2)) ∧
    (mapGet ((Principal t p2 (Principal t p1 s)).principal) t =
      some ((mapGet s.principal t).getD [] ++ (p1 ++ p2))) ∧
    (mapGet ((NotPrincipal u q2 (NotPrincipal u q1 s)).notPrincipal) u =
      some ((mapGet s.notPrincipal u).getD [] ++ (q1 ++ q2))) ∧
    ((mapGet ((Condition op k v2 (Condition op k v1 s)).condition) op).bind
        (fun inner => mapGet inner k) = some v2) := by
  refine ⟨?_, ?_, ?_, ?_, ?_, ?_, ?_⟩
  · simp [Action, List.append_assoc]
  · simp [NotAction, List.append_assoc]
  · simp [Resource, List.append_assoc]
  · simp [NotResource, List.append_assoc]
  · simp [Principal, mapGet_mapAppend, List.append_assoc]
  · simp [NotPrincipal, mapGet_mapAppend, List.append_assoc]
  · simp [Condition, mapGet_mapSet]

end policy

namespace policy

lemma stmt_validate_base (s : Stmt) (e : VErr) (h : s.validate = some e) :
    e.base = BaseErr.invalidStatement := by
  unfold Stmt.validate at h
  split_ifs at h
  all_goals first
    | exact Option.noConfusion h
    | exact (Option.some.inj h) ▸ rfl

lemma firstStmtErr_none_iff (id : String) (l : List Stmt) :
    firstStmtErr id l = none ↔ ∀ s ∈ l, s.validate = none := by
  induction l with
  | nil => simp [firstStmtErr]
  | cons s rest ih =>
    cases hs : s.validate with
    | none => simp [firstStmtErr, hs, ih]
    | some e => simp [firstStmtErr, hs]

lemma firstStmtErr_base (id : String) (l : List Stmt) (e : VErr)
    (h : firstStmtErr id l = some e) : e.base = BaseErr.invalidStatement := by
  induction l with
  | nil => exact Option.noConfusion h
  | cons s rest ih =>
    unfold firstStmtErr at h
    cases hs : s.validate with
    | none => rw [hs] at h; exact ih h
    | some e2 =>
      rw [hs] at h
      have := Option.some.inj h
      rw [← this]
      exact stmt_validate_base s e2 hs

/-- Claim C4 (amended): `Policy.Validate` fails exactly when the version
is empty, or the id is empty, or some contained statement fails
`Stmt.Validate`.  The returned error wraps `ErrInvalidPolicy` when the
version or id is empty; when only a contained statement is invalid, the
returned error wraps that statement's `ErrInvalidStatement` (not
`ErrInvalidPolicy`).  `ToStringOutput` performs this validation and fails
with a terminal error (panic) before attempting any serialization of an
invalid policy. -/
theorem c4_policy_validate (p : Policy) :
    ((p.validate).isSome = true ↔
      (p.version = "" ∨ p.id = "" ∨ ∃ s ∈ p.statement, (s.validate).isSome = true)) ∧
    ((p.version = "" ∨ p.id = "") →
      ∃ e, p.validate = some e ∧ e.base = BaseErr.invalidPolicy) ∧
    (¬ (p.version = "" ∨ p.id = "") →
      ∀ e, p.validate = some e → e.base = BaseErr.invalidStatement) ∧
    (∀ e, p.validate = some e → toStringOutput p = Except.error e) := by
  refine ⟨?_, ?_, ?_, ?_⟩
  · unfold Policy.validate
    by_cases hvi : p.version = "" ∨ p.id = ""
    · simp only [if_pos hvi]
      simp [hvi]
      tauto
    · simp only [if_neg hvi]
      rw [Option.isSome_iff_ne_none]
      rw [Ne, firstStmtErr_none_iff]
      push_neg at hvi ⊢
      constructor
      · intro h
        obtain ⟨s, hs, hne⟩ := h
        exact Or.inr (Or.inr ⟨s, hs, Option.isSome_iff_ne_none.mpr hne⟩)
      · intro h
        rcases h with h | h | ⟨s, hs, hne⟩
        · exact absurd h hvi.1
        · exact absurd h hvi.2
        · exact ⟨s, hs, Option.isSome_iff_ne_none.mp hne⟩
  · intro hvi
    unfold Policy.validate
    rw [if_pos hvi]
    exact ⟨_, rfl, rfl⟩
  · intro hvi e he
    unfold Policy.validate at he
    rw [if_neg hvi] at he
    exact firstStmtErr_base p.id p.statement e he
  · intro e he
    unfold toStringOutput
    rw [he]

/-- Witness for C4: a policy with empty version and id fails validation
with an error wrapping `ErrInvalidPolicy`. -/
theorem c4_witness :
    ∃ e, pBadC4.validate = some e ∧ e.base = BaseErr.invalidPolicy :=
  (c4_policy_validate pBadC4).2.1 (Or.inl rfl)

/-- Counterexample for C4 as frozen: a policy whose version and id are
set but whose only statement is invalid does fail validation, yet the
returned error wraps `ErrInvalidStatement`, not `ErrInvalidPolicy` - so
"returns an error wrapping ErrInvalidPolicy iff ... some contained
statement fails" is refuted. -/
theorem c4_counterexample :
    (pCexC4.validate).isSome = true ∧
      (pCexC4.validate).map VErr.base = some BaseErr.invalidStatement ∧
      BaseErr.invalidStatement ≠ BaseErr.invalidPolicy :=
  ⟨rfl, rfl, by decide⟩

end policy

namespace policy

lemma flatten_of_resolved (s : Strings) (h : stringsResolved s = true) :
    ∃ es, flattenStrings s = some es := by
  induction s with
  | nil => exact ⟨[], rfl⟩
  | cons el rest ih =>
    simp [stringsResolved] at h ih
    obtain ⟨es, hes⟩ := ih h.2
    cases el with
    | str v => exact ⟨v :: es, by simp [flattenStrings, hes]⟩
    | strList xs => exact ⟨xs ++ es, by simp [flattenStrings, hes]⟩
    | other d => simp [StrElem.isPlain] at h

lemma marshalStrings_of_resolved (s : Strings) (h : stringsResolved s = true) :
    ∃ j, marshalStrings s = some j := by
  obtain ⟨es, hes⟩ := flatten_of_resolved s h
  unfold marshalStrings
  rw [hes]
  cases es with
  | nil => exact ⟨_, rfl⟩
  | cons a t => cases t with
    | nil => exact ⟨_, rfl⟩
    | cons b t2 => exact ⟨_, rfl⟩

lemma optMapM_some_of {α β : Type} (f : α → Option β) (P : β → Prop) (l : List α)
    (h : ∀ x ∈ l, ∃ y, f x = some y ∧ P y) :
    ∃ ys, optMapM f l = some ys ∧ ys.length = l.length ∧ ∀ y ∈ ys, P y := by
  induction l with
  | nil => exact ⟨[], rfl, rfl, by simp⟩
  | cons x rest ih =>
    obtain ⟨y, hy, hPy⟩ := h x (by simp)
    obtain ⟨ys, hys, hlen, hP⟩ := ih (fun z hz => h z (by simp [hz]))
    refine ⟨y :: ys, ?_, by simp [hlen], ?_⟩
    · unfold optMapM
      rw [hy, hys]
      rfl
    · intro z hz
      rcases List.mem_cons.mp hz with hz | hz
      · exact hz ▸ hPy
      · exact hP z hz

lemma mem_insertByKey {α : Type} (kv x : String × α) (l : List (String × α))
    (h : x ∈ insertByKey kv l) : x = kv ∨ x ∈ l := by
  induction l with
  | nil => simpa [insertByKey] using h
  | cons kv2 rest ih =>
    unfold insertByKey at h
    by_cases hc : strLe kv.1 kv2.1 = true
    · rw [if_pos hc] at h
      simpa using h
    · rw [if_neg hc] at h
      rcases List.mem_cons.mp h with h | h
      · exact Or.inr (by simp [h])
      · rcases ih h with h | h
        · exact Or.inl h
        · exact Or.inr (by simp [h])

lemma mem_sortByKey {α : Type} (x : String × α) (l : List (String × α))
    (h : x ∈ sortByKey l) : x ∈ l := by
  induction l with
  | nil => exact absurd h (by simp [sortByKey])
  | cons kv rest ih =>
    have h2 : x ∈ insertByKey kv (sortByKey rest) := h
    rcases mem_insertByKey kv x (sortByKey rest) h2 with h3 | h3
    · simp [h3]
    · exact List.mem_cons.mpr (Or.inr (ih h3))

lemma marshalStringsMap_some (m : List (String × Strings)) (h : mapResolved m = true) :
    ∃ f, marshalStringsMap m = some f := by
  have hall : ∀ kv ∈ m, stringsResolved kv.2 = true := by
    intro kv hkv
    exact List.all_eq_true.mp h kv hkv
  have hsorted : ∀ kv ∈ sortByKey m,
      ∃ y, (marshalStrings kv.2).map (fun j => (kv.1, j)) = some y ∧ True := by
    intro kv hkv
    obtain ⟨j, hj⟩ := marshalStrings_of_resolved kv.2 (hall kv (mem_sortByKey kv m hkv))
    exact ⟨(kv.1, j), by simp [hj], trivial⟩
  obtain ⟨ys, hys, _, _⟩ :=
    optMapM_some_of (fun kv => (marshalStrings kv.2).map (fun j => (kv.1, j)))
      (fun _ => True) (sortByKey m) hsorted
  exact ⟨ys, hys⟩

lemma marshalOptStrings_some (key : String) (s : Strings) (h : stringsResolved s = true) :
    ∃ f, marshalOptStrings key s = some f := by
  unfold marshalOptStrings
  by_cases he : s = []
  · rw [if_pos he]
    exact ⟨[], rfl⟩
  · rw [if_neg he]
    obtain ⟨j, hj⟩ := marshalStrings_of_resolved s h
    exact ⟨[(key, j)], by simp [hj]⟩

lemma marshalOptMap_some (key : String) (m : List (String × Strings))
    (h : mapResolved m = true) : ∃ f, marshalOptMap key m = some f := by
  unfold marshalOptMap
  by_cases he : m = []
  · rw [if_pos he]
    exact ⟨[], rfl⟩
  · rw [if_neg he]
    obtain ⟨f, hf⟩ := marshalStringsMap_some m h
    exact ⟨[(key, JVal.obj f)], by simp [hf]⟩

lemma marshalCondMap_some (m : List (String × List (String × Strings)))
    (h : m.all (fun kv => mapResolved kv.2) = true) : ∃ f, marshalCondMap m = some f := by
  have hall : ∀ kv ∈ m, mapResolved kv.2 = true := by
    intro kv hkv
    exact List.all_eq_true.mp h kv hkv
  have hsorted : ∀ kv ∈ sortByKey m,
      ∃ y, (marshalStringsMap kv.2).map (fun f => (kv.1, JVal.obj f)) = some y ∧ True := by
    intro kv hkv
    obtain ⟨f, hf⟩ := marshalStringsMap_some kv.2 (hall kv (mem_sortByKey kv m hkv))
    exact ⟨(kv.1, JVal.obj f), by simp [hf], trivial⟩
  obtain ⟨ys, hys, _, _⟩ :=
    optMapM_some_of (fun kv => (marshalStringsMap kv.2).map (fun f => (kv.1, JVal.obj f)))
      (fun _ => True) (sortByKey m) hsorted
  exact ⟨ys, hys⟩

lemma marshalOptCond_some (m : List (String × List (String × Strings)))
    (h : m.all (fun kv => mapResolved kv.2) = true) : ∃ f, marshalOptCond m = some f := by
  unfold marshalOptCond
  by_cases he : m = []
  · rw [if_pos he]
    exact ⟨[], rfl⟩
  · rw [if_neg he]
    obtain ⟨f, hf⟩ := marshalCondMap_some m h
    exact ⟨[("Condition", JVal.obj f)], by simp [hf]⟩

lemma marshalStmt_of_resolved (s : Stmt) (h : stmtResolved s = true) :
    ∃ fields, marshalStmt s = some (JVal.obj fields) := by
  unfold stmtResolved at h
  simp only [Bool.and_eq_true] at h
  obtain ⟨⟨⟨⟨⟨⟨hP, hNP⟩, hA⟩, hNA⟩, hR⟩, hNR⟩, hC⟩ := h
  obtain ⟨fP, hfP⟩ := marshalOptMap_some "Principal" s.principal hP
  obtain ⟨fNP, hfNP⟩ := marshalOptMap_some "NotPrincipal" s.notPrincipal hNP
  obtain ⟨fA, hfA⟩ := marshalOptStrings_some "Action" s.action hA
  obtain ⟨fNA, hfNA⟩ := marshalOptStrings_some "NotAction" s.notAction hNA
  obtain ⟨fR, hfR⟩ := marshalOptStrings_some "Resource" s.resource hR
  obtain ⟨fNR, hfNR⟩ := marshalOptStrings_some "NotResource" s.notResource hNR
  obtain ⟨fC, hfC⟩ := marshalOptCond_some s.condition hC
  have hm : marshalStmt s = some (JVal.obj
      ((if s.sid = "" then [] else [("Sid", JVal.str s.sid)]) ++
        [("Effect", JVal.str s.effect)] ++ fP ++ fNP ++ fA ++ fNA ++ fR ++ fNR ++ fC)) := by
    unfold marshalStmt
    rw [hfP, hfNP, hfA, hfNA, hfR, hfNR, hfC]
    rfl
  exact ⟨_, hm⟩

lemma marshalStmts_of_resolved (l : List Stmt) (h : ∀ s ∈ l, stmtResolved s = true) :
    ∃ sv, marshalStmts l = some sv ∧
      (l.length = 1 → ∃ fields, sv = JVal.obj fields) ∧
      (2 ≤ l.length →
        ∃ ys, optMapM marshalStmt l = some ys ∧ sv = JVal.arr ys ∧
          ys.length = l.length ∧ ∀ j ∈ ys, ∃ fields, j = JVal.obj fields) := by
  have hmm := optMapM_some_of marshalStmt (fun j => ∃ fields, j = JVal.obj fields) l
    (fun s hs => by
      obtain ⟨fields, hf⟩ := marshalStmt_of_resolved s (h s hs)
      exact ⟨JVal.obj fields, hf, fields, rfl⟩)
  obtain ⟨ys, hys, hlen, hobj⟩ := hmm
  cases l with
  | nil =>
    refine ⟨JVal.arr ys, ?_, by simp, by simp⟩
    unfold marshalStmts
    rw [hys]
    rfl
  | cons s1 t =>
    cases t with
    | nil =>
      obtain ⟨fields, hf⟩ := marshalStmt_of_resolved s1 (h s1 (by simp))
      exact ⟨JVal.obj fields, hf, fun _ => ⟨fields, rfl⟩, by simp⟩
    | cons s2 t2 =>
      refine ⟨JVal.arr ys, ?_, by simp, fun _ => ⟨ys, hys, rfl, hlen, hobj⟩⟩
      unfold marshalStmts
      rw [hys]
      rfl

/-- Claim C1: for every valid, fully resolved policy, `ToStringOutput`
serializes to an object with keys Version, Id, Statement, where a policy
with exactly one statement binds Statement to a bare JSON object and a
policy with two or more statements binds Statement to a JSON array of
objects in construction order (`optMapM marshalStmt` maps the statement
list in order). -/
theorem c1_statement_single_vs_array (p : Policy)
    (hv : p.validate = none) (hr : policyResolved p = true) :
    ∃ sv,
      toStringOutput p =
        Except.ok (some (JVal.obj
          [("Version", JVal.str p.version), ("Id", JVal.str p.id), ("Statement", sv)])) ∧
      (p.statement.length = 1 → ∃ fields, sv = JVal.obj fields) ∧
      (2 ≤ p.statement.length →
        ∃ ys, optMapM marshalStmt p.statement = some ys ∧ sv = JVal.arr ys ∧
          ys.length = p.statement.length ∧ ∀ j ∈ ys, ∃ fields, j = JVal.obj fields) := by
  have hall : ∀ s ∈ p.statement, stmtResolved s = true := by
    intro s hs
    exact List.all_eq_true.mp hr s hs
  obtain ⟨sv, hsv, h1, h2⟩ := marshalStmts_of_resolved p.statement hall
  refine ⟨sv, ?_, h1, h2⟩
  unfold toStringOutput
  rw [hv]
  unfold marshalPolicy
  rw [hsv]
  rfl

/-- Witness for C1: the single-statement policy of the repository's
`TestStringArrayJSON` test validates, and its Statement value is a bare
object. -/
theorem c1_witness :
    Policy.validate wpolC1 = none ∧ policyResolved wpolC1 = true ∧
    ∃ sv,
      toStringOutput wpolC1 =
        Except.ok (some (JVal.obj
          [("Version", JVal.str wpolC1.version), ("Id", JVal.str wpolC1.id),
            ("Statement", sv)])) ∧
      (wpolC1.statement.length = 1 → ∃ fields, sv = JVal.obj fields) ∧
      (2 ≤ wpolC1.statement.length →
        ∃ ys, optMapM marshalStmt wpolC1.statement = some ys ∧ sv = JVal.arr ys ∧
          ys.length = wpolC1.statement.length ∧ ∀ j ∈ ys, ∃ fields, j = JVal.obj fields) :=
  ⟨rfl, rfl, c1_statement_single_vs_array wpolC1 rfl rfl⟩

end policy

/- ========================= theorems: template ========================= -/

namespace template

/-- Claim C5 (amended): for every syntactically malformed template text,
with the package's error-capture mode on (`noPanic`, as its test suite
sets), `New`/`NewJSON` return an already-resolved output value wrapping
the CompileError as a terminal error value - produced before any
variable resolution (the result is `immediate`, no continuation is
registered on `vars`); in the default mode, however, the compile error
is raised as a synchronous panic, so the caller receives no output
value. -/
theorem c5_compile_error_wrapped (vars : List (String × Value)) (text : String)
    (b : Bool) (d : String) (h : parseTemplate text = Except.error d) :
    renderTemplate true vars text b =
      Except.ok (SyncResult.immediate (some (TemplateErr.compileError d))
        (errMessage (TemplateErr.compileError d))) ∧
    renderTemplate false vars text b = Except.error (TemplateErr.compileError d) := by
  unfold renderTemplate templateError
  rw [h]
  exact ⟨rfl, rfl⟩

/-- Witness for C5: the unclosed action `\x7b\x7b`. -/
theorem c5_witness :
    renderTemplate true [] "\x7b\x7b" false =
      Except.ok (SyncResult.immediate (some (TemplateErr.compileError "unclosed action"))
        (errMessage (TemplateErr.compileError "unclosed action"))) ∧
    renderTemplate false [] "\x7b\x7b" false =
      Except.error (TemplateErr.compileError "unclosed action") :=
  c5_compile_error_wrapped [] "\x7b\x7b" false "unclosed action" rfl

/-- Counterexample for C5 as frozen: in the default (non-test) mode a
malformed template makes `New` panic synchronously - the call returns no
asynchronous string value at all, refuting "not thrown synchronously,
the caller always receives a value of the asynchronous-string type". -/
theorem c5_counterexample :
    isOkE (renderTemplate false [] "\x7b\x7b" false) = false ∧
      renderTemplate false [] "\x7b\x7b" false =
        Except.error (TemplateErr.compileError "unclosed action") :=
  ⟨rfl, rfl⟩

/-- Claim C6 (amended): for every template whose execution against the
resolved variables fails (for example an invalid field access on a
resolved value), the rendered result is the ExecuteError (captured, or
raised as a panic in default mode) - never a silent empty or partial
output string; but a reference to a top-level variable absent from
`vars` is not an execution failure: it renders as the `<no value>`
placeholder with no error. -/
theorem c6_execute_error_vs_missing_var (noPanic : Bool) (vars : VarMap)
    (chunks : List Chunk) (b : Bool) :
    (∀ d, execChunks vars chunks = Except.error d →
      contRun noPanic vars chunks b =
        (if noPanic then
          Except.ok (some (TemplateErr.executeError d),
            errMessage (TemplateErr.executeError d))
         else Except.error (TemplateErr.executeError d))) ∧
    (∀ name, vars name = none →
      execChunks vars [Chunk.field [name]] = Except.ok "<no value>") := by
  constructor
  · intro d hd
    unfold contRun
    rw [hd]
    unfold templateError
    rfl
  · intro name hn
    unfold execChunks
    rw [hn]
    rfl

/-- Witness for C6: an invalid field access on a resolved string yields
the ExecuteError through the continuation, and a missing variable
renders as the placeholder. -/
theorem c6_witness :
    contRun true c6vars [Chunk.field ["A", "B"]] false =
      Except.ok (some (TemplateErr.executeError "can't evaluate field B in type string"),
        errMessage (TemplateErr.executeError "can't evaluate field B in type string")) ∧
    c6vars "Z" = none ∧
    execChunks c6vars [Chunk.field ["Z"]] = Except.ok "<no value>" :=
  ⟨(c6_execute_error_vs_missing_var true c6vars [Chunk.field ["A", "B"]] false).1
      "can't evaluate field B in type string" rfl,
    rfl,
    (c6_execute_error_vs_missing_var true c6vars [Chunk.field ["Z"]] false).2 "Z" rfl⟩

/-- Counterexample for C6 as frozen: a template referencing a variable
not present in `vars` renders to completion with no ExecuteError - the
output silently carries the `<no value>` placeholder. -/
theorem c6_counterexample :
    renderEventual true [] "\x7b\x7b.Missing\x7d\x7d" false =
      Except.ok (none, "<no value>") := rfl

/-- Claim C7: with JSON validation enabled, rendered text that fails to
parse as JSON yields the InvalidJSON error (captured in no-panic mode,
panicking otherwise) whose message includes the decimal byte offset of
the syntax error, and rendered text that parses as JSON is returned
unchanged. -/
theorem c7_json_validation (noPanic : Bool) (result : String) :
    (∀ off m, unmarshalValid result = Except.error (off, m) →
      validatePhase noPanic true result =
        (if noPanic then
          Except.ok (some (TemplateErr.invalidJSON (some off) m result),
            errMessage (TemplateErr.invalidJSON (some off) m result))
         else Except.error (TemplateErr.invalidJSON (some off) m result)) ∧
      ∃ pre post,
        errMessage (TemplateErr.invalidJSON (some off) m result) =
          pre ++ Nat.repr off ++ post) ∧
    (unmarshalValid result = Except.ok () →
      validatePhase noPanic true result = Except.ok (none, result)) := by
  constructor
  · intro off m h
    constructor
    · unfold validatePhase
      rw [h]
      unfold templateError
      rfl
    · exact ⟨"template produced invalid JSON: Template does not compile to valid JSON with syntax error at byte ",
        ": " ++ m ++ "\n" ++ result, rfl⟩
  · intro h
    unfold validatePhase
    rw [h]
    rfl

/-- Witness for C7: the non-JSON text "nope" fails at byte offset 1 and
yields the captured InvalidJSON error; the valid text "[]" passes
through unchanged. -/
theorem c7_witness :
    validatePhase true true "nope" =
      Except.ok (some (TemplateErr.invalidJSON (some 1) "invalid character o in literal" "nope"),
        errMessage (TemplateErr.invalidJSON (some 1) "invalid character o in literal" "nope")) ∧
    validatePhase true true "[]" = Except.ok (none, "[]") :=
  ⟨((c7_json_validation true "nope").1 1 "invalid character o in literal" rfl).1,
    (c7_json_validation true "[]").2 rfl⟩

end template

namespace template

lemma fieldGet_append (l1 l2 : List (String × Value)) (x : String) :
    fieldGet (l1 ++ l2) x =
      match fieldGet l1 x with
      | some v => some v
      | none => fieldGet l2 x := by
  induction l1 with
  | nil => rfl
  | cons kv rest ih =>
    by_cases hx : x = kv.1
    · simp [fieldGet, hx]
    · simp [fieldGet, hx, ih]

lemma foldlUpd_eq (pairs : List (String × Value)) (m0 : VarMap) (x : String) :
    (pairs.foldl (fun m kv => fun y => if y = kv.1 then some kv.2 else m y) m0) x =
      match fieldGet pairs.reverse x with
      | some v => some v
      | none => m0 x := by
  induction pairs generalizing m0 with
  | nil => rfl
  | cons kv rest ih =>
    rw [List.foldl_cons, ih, List.reverse_cons, fieldGet_append]
    cases hf : fieldGet rest.reverse x with
    | some v => rfl
    | none =>
      by_cases hx : x = kv.1 <;> simp [fieldGet, hx]

lemma fieldGet_perm {p1 p2 : List (String × Value)} (h : p1.Perm p2) :
    (p1.map Prod.fst).Nodup → ∀ x, fieldGet p1 x = fieldGet p2 x := by
  induction h with
  | nil => intro _ x; rfl
  | cons a h2 ih =>
    intro hnd x
    simp only [List.map_cons, List.nodup_cons] at hnd
    by_cases hx : x = a.1 <;> simp [fieldGet, hx, ih hnd.2 x]
  | swap a b l =>
    intro hnd x
    simp only [List.map_cons, List.nodup_cons, List.mem_cons] at hnd
    have hne : b.1 ≠ a.1 := fun hh => hnd.1 (Or.inl hh)
    by_cases h1 : x = b.1
    · have h2 : ¬ x = a.1 := fun hh => hne (h1.symm.trans hh)
      simp [fieldGet, h1, h2, hne]
    · by_cases h2 : x = a.1 <;> simp [fieldGet, h1, h2, hne, Ne.symm hne]
  | trans h1 h2 ih1 ih2 =>
    intro hnd x
    have hnd2 := (h1.map Prod.fst).nodup hnd
    rw [ih1 hnd x, ih2 hnd2 x]

lemma buildFinalVars_perm {p1 p2 : List (String × Value)} (h : p1.Perm p2)
    (hnd : (p1.map Prod.fst).Nodup) : buildFinalVars p1 = buildFinalVars p2 := by
  funext x
  unfold buildFinalVars
  rw [foldlUpd_eq, foldlUpd_eq]
  have hperm : p1.reverse.Perm p2.reverse :=
    (List.reverse_perm p1).trans (h.trans (List.reverse_perm p2).symm)
  have hnd2 : (p1.reverse.map Prod.fst).Nodup := by
    rw [List.map_reverse, List.nodup_reverse]
    exact hnd
  rw [fieldGet_perm hperm hnd2 x]

/-- Claim C9: for a variable mapping with no unresolved asynchronous
inputs and a valid template text, rendering is deterministic: the
eventual output does not depend on the (arbitrary) order in which Go
iterates the `vars` map, because the continuation rebuilds the same
final map from the captured names and values.  Two runs over the same
mapping - modelled as any two permutations of the same key-distinct
pair list - produce the same result. -/
theorem c9_render_deterministic (noPanic : Bool) (text : String) (chunks : List Chunk)
    (p1 p2 : List (String × Value)) (hparse : parseTemplate text = Except.ok chunks)
    (hperm : p1.Perm p2) (hnd : (p1.map Prod.fst).Nodup) :
    renderEventual noPanic p1 text false = renderEventual noPanic p2 text false := by
  unfold renderEventual renderTemplate
  rw [hparse, buildFinalVars_perm hperm hnd]

/-- Witness for C9: the two iteration orders of a two-variable mapping
render identically. -/
theorem c9_witness :
    renderEventual true c9p1 "\x7b\x7b.A\x7d\x7d" false =
      renderEventual true c9p2 "\x7b\x7b.A\x7d\x7d" false :=
  c9_render_deterministic true "\x7b\x7b.A\x7d\x7d" [Chunk.field ["A"]] c9p1 c9p2 rfl
    (List.Perm.swap ("B", Value.str "2") ("A", Value.str "1") []) (by decide)

end template
